import Mathlib

/-
Verification of the multivec word2vec engine:
  src/multivec/monolingual.hpp, src/multivec/monolingual.cpp,
  src/multivec/distance.cpp.
Machine floating-point values are modelled by exact rationals; the numeric
primitives that live in utils.hpp (which is not part of the sources under
verification) are modelled from the spec and marked as such.
-/

/-- Error kinds surfaced by the query layer. Each constructor corresponds to a
C++ runtime_error thrown in the sources; `undefinedBehavior` makes explicit the
places where the C++ performs an out-of-range vector access or violates a
standard-library precondition. -/
inductive Err where
  | oov
  | allOOV
  | shapeMismatch
  | undefinedBehavior
  deriving DecidableEq

/-- Decidable equality of Except values, used to evaluate the embedded
functions at concrete inputs. -/
instance instDecEqExcept {ε α : Type} [DecidableEq ε] [DecidableEq α] :
    DecidableEq (Except ε α) := fun a b =>
  match a, b with
  | .ok x, .ok y => if h : x = y then .isTrue (by simp [h]) else .isFalse (by simp [h])
  | .error e, .error f => if h : e = f then .isTrue (by simp [h]) else .isFalse (by simp [h])
  | .ok _, .error _ => .isFalse (by simp)
  | .error _, .ok _ => .isFalse (by simp)

/-- Modelled from the spec: whitespace tokenization (`split` lives in
utils.hpp, which is not under src/). Spec section 6: tokens are separated by
ASCII whitespace; empty lines contribute no tokens. -/
def splitAcc : List Char → List Char → List String
  | [], acc => if acc.isEmpty then [] else [String.mk acc.reverse]
  | c :: cs, acc =>
    if c = ' ' ∨ c = '\t' ∨ c = '\n' ∨ c = '\r' then
      (if acc.isEmpty then [] else [String.mk acc.reverse]) ++ splitAcc cs []
    else
      splitAcc cs (c :: acc)

/-- Whitespace tokenization of a sentence (see `splitAcc`). -/
def split (s : String) : List String := splitAcc s.data []

/-- Modelled from the spec: the fixed-dimension dense float vector `vec` of
utils.hpp (spec section 3), with elementwise operations. -/
abbrev Vec := List ℚ

/-- Elementwise sum of two vectors (`vec::operator+`). -/
def vadd (v w : Vec) : Vec := List.zipWith (· + ·) v w

/-- Scalar multiple of a vector (`operator*(float, vec)`). -/
def vsmul (c : ℚ) (v : Vec) : Vec := v.map (fun x => c * x)

/-- Division of a vector by a scalar (`vec::operator/=`). -/
def vdivs (v : Vec) (c : ℚ) : Vec := v.map (fun x => x / c)

/-- Dot product of two vectors (`vec::dot`). -/
def dot (v w : Vec) : ℚ := (List.zipWith (· * ·) v w).sum

/-- The zero vector of a given dimension (`vec hidden(dimension, 0)`). -/
def zeroVec (d : ℕ) : Vec := List.replicate d 0

/-- The slice of MonolingualModel state read by the query layer
(monolingual.hpp lines 17-37): the configuration fields `dimension` and
`negative`, the vocabulary as the iteration sequence of the unordered_map
(word paired with its index), and the two weight matrices indexed by
vocabulary index. The field `cosSim` is modelled from the spec:
`cosineSimilarity` lives in utils.hpp, which is not under src/; the only
property of it ever assumed is the cosine bound (at most 1), and then only as
an explicit hypothesis. -/
structure Model where
  dimension : ℕ
  negative : ℕ
  vocab : List (String × ℕ)
  input_weights : ℕ → Vec
  output_weights : ℕ → Vec
  cosSim : Vec → Vec → ℚ

/-- Lookup in the vocabulary map (`vocabulary.find(word)`), returning the
index of the node when the word is present. -/
def Model.find (m : Model) (word : String) : Option ℕ :=
  (m.vocab.find? (fun e => e.1 == word)).map (fun e => e.2)

/-- MonolingualModel::wordVec(int index, int policy), monolingual.cpp lines
308-329: policy 1 concatenates input and output weights, policy 2 sums them,
policy 3 returns the output weights, and every other case (including policies
1, 2, 3 when `negative` is zero) returns the input weights. -/
def Model.wordVecIdx (m : Model) (index : ℕ) (policy : ℤ) : Vec :=
  if policy = 1 ∧ 0 < m.negative then
    m.input_weights index ++ m.output_weights index
  else if policy = 2 ∧ 0 < m.negative then
    vadd (m.input_weights index) (m.output_weights index)
  else if policy = 3 ∧ 0 < m.negative then
    m.output_weights index
  else
    m.input_weights index

/-- MonolingualModel::wordVec(const string&, int), monolingual.cpp lines
342-350: throws "out of vocabulary" for an unknown word, otherwise delegates
to the index overload. -/
def Model.wordVec (m : Model) (word : String) (policy : ℤ) : Except Err Vec :=
  match m.find word with
  | none => .error .oov
  | some i => .ok (m.wordVecIdx i policy)

/-- MonolingualModel::similarity, distance.cpp lines 10-23: 0.0 when either
word is out of vocabulary (no exception is thrown), 1.0 when both resolve to
the same index, otherwise the cosine similarity of the two word vectors. -/
def Model.similarity (m : Model) (word1 word2 : String) (policy : ℤ) : ℚ :=
  match m.find word1, m.find word2 with
  | some i1, some i2 =>
    if i1 = i2 then 1
    else m.cosSim (m.wordVecIdx i1 policy) (m.wordVecIdx i2 policy)
  | _, _ => 0

/-- MonolingualModel::distance, distance.cpp lines 25-27. -/
def Model.distance (m : Model) (word1 word2 : String) (policy : ℤ) : ℚ :=
  (1 - m.similarity word1 word2 policy) / 2

/-- The accumulation loop of MonolingualModel::similarityNgrams, distance.cpp
lines 107-115, walking the two token sequences in lockstep: position i of
words1 is paired with position i of words2. The C++ subscript `words2[i]`
past the end of words2 is undefined behaviour, modelled as an explicit error.
The try/catch around `similarity` in the source is dead code, since
`similarity` returns 0.0 on out-of-vocabulary words and never throws, so every
pair contributes to the sum and to the count n. -/
def ngramLoop (m : Model) (policy : ℤ) : List String → List String → ℚ → ℕ →
    Except Err (ℚ × ℕ)
  | [], _, res, n => .ok (res, n)
  | _ :: _, [], _, _ => .error .undefinedBehavior
  | w1 :: r1, w2 :: r2, res, n =>
    ngramLoop m policy r1 r2 (res + m.similarity w1 w2 policy) (n + 1)

/-- MonolingualModel::similarityNgrams, distance.cpp lines 99-122. The length
guard in the source compares `words2.size() != words2.size()`, which is always
false, and is transcribed as written; the AllOOV branch fires only when the
loop counted zero pairs, that is, only when seq1 tokenizes to nothing. -/
def Model.similarityNgrams (m : Model) (seq1 seq2 : String) (policy : ℤ) :
    Except Err ℚ :=
  let words1 := split seq1
  let words2 := split seq2
  if words2.length ≠ words2.length then .error .shapeMismatch
  else
    match ngramLoop m policy words1 words2 0 0 with
    | .error e => .error e
    | .ok (res, n) => if n = 0 then .error .allOOV else .ok (res / (n : ℚ))

/-- Concrete model over vocabulary x, z (scenario S3 of the spec): dimension
1, negative sampling off. -/
def mXZ : Model :=
  { dimension := 1, negative := 0, vocab := [("x", 0), ("z", 1)],
    input_weights := fun _ => [1], output_weights := fun _ => [0],
    cosSim := fun _ _ => 0 }

/-- Concrete model with an empty vocabulary. -/
def mEmptyVocab : Model :=
  { dimension := 1, negative := 0, vocab := [],
    input_weights := fun _ => [1], output_weights := fun _ => [0],
    cosSim := fun _ _ => 0 }

/-- Concrete model over the single-word vocabulary a. -/
def mA : Model :=
  { dimension := 1, negative := 0, vocab := [("a", 0)],
    input_weights := fun _ => [1], output_weights := fun _ => [0],
    cosSim := fun _ _ => 0 }

/-- Concrete model with negative sampling disabled and a nontrivial
distinction between input row [5] and output row [7]. -/
def mN0 : Model :=
  { dimension := 1, negative := 0, vocab := [("a", 0)],
    input_weights := fun _ => [5], output_weights := fun _ => [7],
    cosSim := fun _ _ => 0 }

/-- Concrete model identical to mN0 except that negative sampling is on. -/
def mW : Model :=
  { dimension := 1, negative := 1, vocab := [("a", 0)],
    input_weights := fun _ => [5], output_weights := fun _ => [7],
    cosSim := fun _ _ => 0 }

/-- The comparator comp of distance.cpp lines 30-32, as the corresponding
order relation: an entry precedes another when its similarity score is at
least as large (descending by score). std::sort and std::partial_sort leave
the relative order of tied entries unspecified; the embedding fixes one
admissible order, and no proved statement depends on the tie order. -/
def simDescOrder (a b : String × ℚ) : Prop := b.2 ≤ a.2

instance : DecidableRel simDescOrder :=
  fun a b => inferInstanceAs (Decidable (b.2 ≤ a.2))

instance : IsTotal (String × ℚ) simDescOrder := ⟨fun a b => le_total b.2 a.2⟩

instance : IsTrans (String × ℚ) simDescOrder :=
  ⟨fun _ _ _ h1 h2 => le_trans h2 h1⟩

/-- The candidate list built by MonolingualModel::closest, distance.cpp lines
48-53: every vocabulary entry whose index differs from the query index, in
vocabulary iteration order, paired with its cosine similarity to the query
vector. -/
def Model.closestRes (m : Model) (index : ℕ) (policy : ℤ) : List (String × ℚ) :=
  let v1 := m.wordVecIdx index policy
  m.vocab.filterMap (fun e =>
    if e.2 ≠ index then some (e.1, m.cosSim v1 (m.wordVecIdx e.2 policy))
    else none)

/-- MonolingualModel::closest(const string&, int, int), distance.cpp lines
37-58: fails with OOV for an unknown word; otherwise the candidate list is
partially sorted by descending similarity and resized to n entries. The call
std::partial_sort(res.begin(), res.begin() + n, res.end()) requires the
middle iterator to lie inside the range, that is n ≤ res.size(); when n
exceeds the candidate count the C++ call is undefined behaviour, modelled as
an explicit error. -/
def Model.closest (m : Model) (word : String) (n : ℕ) (policy : ℤ) :
    Except Err (List (String × ℚ)) :=
  match m.find word with
  | none => .error .oov
  | some index =>
    let res := m.closestRes index policy
    if n ≤ res.length then .ok ((List.insertionSort simDescOrder res).take n)
    else .error .undefinedBehavior

/-- Concrete model over the two-word vocabulary a, b. -/
def mAB : Model :=
  { dimension := 1, negative := 0, vocab := [("a", 0), ("b", 1)],
    input_weights := fun _ => [1], output_weights := fun _ => [0],
    cosSim := fun _ _ => 0 }

/-- The distance table d of MonolingualModel::softWER (distance.cpp lines
238-256): the value at row i, column j is d[i][j], and sub i j is the
substitution cost for tokens s1[i], s2[j] in 0-based indexing (the cell
d[i+1][j+1] of the C++ loop). The first row is d[0][j] = j, the first column
d[i][0] = i, and every inner cell is the three-way minimum over deletion,
insertion and substitution. The recursion is structural (rows by primitive
recursion) so that concrete instances evaluate definitionally. -/
def softWERcol (sub : ℕ → ℕ → ℚ) : ℕ → ℕ → ℚ
  | 0, j => (j : ℚ)
  | i + 1, j =>
    Nat.rec ((i : ℚ) + 1)
      (fun j2 dij => min (min (softWERcol sub i (j2 + 1) + 1) (dij + 1))
        (softWERcol sub i j2 + sub i j2)) j

/-- The Levenshtein dynamic program exactly as the spec words it:
d[0][0] = 0, d[i][0] = i, d[0][j] = j, and
d[i][j] = min(d[i−1][j]+1, d[i][j−1]+1, d[i−1][j−1] + sub). This second,
independent formulation is used to state claim C6 as a refinement of the
spec recurrence by the row-by-row table above. -/
def levDP (sub : ℕ → ℕ → ℚ) : ℕ → ℕ → ℚ
  | 0, 0 => 0
  | i + 1, 0 => (i : ℚ) + 1
  | 0, j + 1 => (j : ℚ) + 1
  | i + 1, j + 1 =>
    min (min (levDP sub i (j + 1) + 1) (levDP sub (i + 1) j + 1))
      (levDP sub i j + sub i j)
termination_by i j => (i, j)

/-- The substitution cost of softWER: embedding distance between token i of
the hypothesis and token j of the reference, 0-based (distance.cpp line
250). Within the DP range the indices are in bounds, so the default token is
never consulted there. -/
def Model.softWERsub (m : Model) (s1 s2 : List String) (policy : ℤ)
    (i j : ℕ) : ℚ :=
  m.distance (s1.getD i "") (s2.getD j "") policy

/-- The final DP value d[len1][len2] of softWER. -/
def Model.softWERnum (m : Model) (hyp ref : String) (policy : ℤ) : ℚ :=
  softWERcol (m.softWERsub (split hyp) (split ref) policy)
    (split hyp).length (split ref).length

/-- The normalizer of softWER: the reference token count len2, used as the
divisor with no guard against zero (distance.cpp line 258). -/
def Model.softWERden (m : Model) (hyp ref : String) : ℚ :=
  ((split ref).length : ℚ)

/-- MonolingualModel::softWER, distance.cpp lines 234-259: the DP value at
(len1, len2) divided by len2. -/
def Model.softWER (m : Model) (hyp ref : String) (policy : ℤ) : ℚ :=
  m.softWERnum hyp ref policy / m.softWERden hyp ref

/-- Concrete model over the three-word vocabulary a, b, c (scenario S2 of the
spec). -/
def mABC : Model :=
  { dimension := 1, negative := 0, vocab := [("a", 0), ("b", 1), ("c", 2)],
    input_weights := fun _ => [1], output_weights := fun _ => [0],
    cosSim := fun _ _ => 0 }

/-- The configuration values read by the learning-rate update of trainChunk
(monolingual.cpp lines 501-503): the starting learning rate, the number of
epochs, and the corpus word count. -/
structure ChunkConfig where
  starting_alpha : ℚ
  iterations : ℕ
  training_words : ℕ

/-- The learning-rate recomputation of trainChunk (monolingual.cpp lines
528-532): alpha = starting_alpha * (1 − words_processed / (iterations *
training_words)), clamped below at starting_alpha * 0.0001. A worker applies
this formula to the current value of the global counter words_processed each
time it flushes its local word count. -/
def updateAlpha (cfg : ChunkConfig) (words_processed : ℕ) : ℚ :=
  let a := cfg.starting_alpha *
    (1 - (words_processed : ℚ) /
      ((cfg.iterations : ℚ) * (cfg.training_words : ℚ)))
  if a < cfg.starting_alpha * (1 / 10000) then cfg.starting_alpha * (1 / 10000)
  else a

/-- One observable step of the global words_processed counter during
training: some worker adds the word count accumulated from trainSentence
(monolingual.cpp lines 519, 525 and 546), which is a count of tokens and
hence nonnegative. Quantifying over every nonnegative increment covers every
interleaving of the worker threads, so every state reachable by trainChunk
steps is reachable by this relation. -/
def FlushStep (wp wp2 : ℕ) : Prop := ∃ w : ℕ, wp2 = wp + w

/-- A concrete chunk configuration for the C7 witness. -/
def cfgChunk : ChunkConfig :=
  { starting_alpha := 1 / 40, iterations := 2, training_words := 5 }

/-- Huffman tree nodes (HuffmanNode is declared in utils.hpp, outside the
verified sources, and built by monolingual.cpp). A leaf carries its
vocabulary word, index and count; an internal node carries the internal
index assigned in construction order. Modelled from the spec for the part
living in utils.hpp: the count of an internal node is the sum of the counts
of its two children. -/
inductive HTree where
  | leaf (word : String) (index : ℕ) (count : ℕ)
  | node (index : ℕ) (l r : HTree)
  deriving DecidableEq

/-- Count of a tree node: the leaf count, or the sum over the children. -/
def HTree.count : HTree → ℕ
  | .leaf _ _ c => c
  | .node _ l r => l.count + r.count

/-- Modelled from the spec: HuffmanNode::comp (utils.hpp, not under src/)
orders nodes by count descending, so the two smallest counts sit at the back
of the heap sequence (spec section 4.1). -/
def hcomp (a b : HTree) : Bool := decide (b.count < a.count)

/-- Ordering used to model std::sort in createBinaryTree: count
descending. -/
def countDescOrder (a b : HTree) : Prop := b.count ≤ a.count

instance : DecidableRel countDescOrder :=
  fun a b => inferInstanceAs (Decidable (b.count ≤ a.count))

/-- The std::lower_bound insertion of createBinaryTree (monolingual.cpp
lines 89-90): place the parent before the first element for which
comp(element, parent) fails, keeping the sequence in descending count
order. -/
def lbInsert (p : HTree) : List HTree → List HTree
  | [] => [p]
  | h :: t => if hcomp h p then h :: lbInsert p t else p :: h :: t

/-- The combining loop of createBinaryTree (monolingual.cpp lines 79-91):
while more than one node remains, pop the two smallest from the back (left
first, then right), make them children of a fresh internal node carrying the
next internal index, and insert the parent back in order. The fuel argument
only bounds the iterations: every pass shrinks the heap by one, so the
initial heap length is always sufficient fuel and the loop stops at a
singleton exactly as the C++ while loop does. -/
def huffLoopAux : ℕ → List HTree → ℕ → List HTree
  | 0, heap, _ => heap
  | _ + 1, [], _ => []
  | _ + 1, [t], _ => [t]
  | fuel + 1, h1 :: h2 :: rest, i =>
    let heap := h1 :: h2 :: rest
    let left := heap.getLastD (.leaf "" 0 0)
    let heap1 := heap.dropLast
    let right := heap1.getLastD (.leaf "" 0 0)
    let heap2 := heap1.dropLast
    huffLoopAux fuel (lbInsert (.node i left right) heap2) (i + 1)

/-- createBinaryTree (monolingual.cpp lines 68-94): sort the vocabulary
nodes by descending count, run the combining loop, and return the root
heap.front(). The result is none only for an empty vocabulary. -/
def createBinaryTree (leaves : List HTree) : Option HTree :=
  (huffLoopAux leaves.length
    (List.insertionSort countDescOrder leaves) 0).head?

/-- assignCodes (monolingual.cpp lines 96-110): depth-first traversal
pushing bit 0 towards the left child and bit 1 towards the right child, and
appending the index of every internal node passed; each leaf records the
accumulated code and parents sequences. The returned list collects the
triple (word, code, parents) of every leaf in traversal order. -/
def assignCodes : HTree → List ℕ → List ℕ → List (String × List ℕ × List ℕ)
  | .leaf w _ _, code, parents => [(w, code, parents)]
  | .node i l r, code, parents =>
    assignCodes l (code ++ [0]) (parents ++ [i]) ++
    assignCodes r (code ++ [1]) (parents ++ [i])

/-- Follow a code sequence down from the root: bit 0 descends left,
otherwise right, collecting the indices of the internal nodes traversed in
order; reaching a leaf with the code exhausted yields the collected internal
index sequence and the leaf word. -/
def pathNodes : HTree → List ℕ → Option (List ℕ × String)
  | .leaf w _ _, [] => some ([], w)
  | .leaf _ _ _, _ :: _ => none
  | .node _ _ _, [] => none
  | .node i l r, b :: bs =>
    match pathNodes (if b = 0 then l else r) bs with
    | none => none
    | some (ps, w) => some (i :: ps, w)

/-- The scenario S6 vocabulary as Huffman leaves: counts 5, 3, 3, 1. -/
def huffLeaves : List HTree :=
  [.leaf "w1" 0 5, .leaf "w2" 1 3, .leaf "w3" 2 3, .leaf "w4" 3 1]

/-- The tree createBinaryTree builds from huffLeaves (checked in the C8
witness). -/
def huffTreeW : HTree :=
  .node 2 (.leaf "w1" 0 5)
    (.node 1 (.leaf "w2" 1 3) (.node 0 (.leaf "w4" 3 1) (.leaf "w3" 2 3)))

/-- The inner argmax scan of the free function dictionaryInduction
(distance.cpp lines 441-450): walk the target list keeping the first
strict-improvement argmax of the dot product, with the similarity
accumulator initialized to 0 and the first target always adopted; the result
is none exactly when the target list is empty. -/
def bestTarget (sv : Vec) (trg : List (String × Vec)) :
    Option (String × Vec) :=
  (trg.foldl
    (fun acc t =>
      match acc with
      | (none, _) => (some t, dot sv t.2)
      | (some b, s) =>
        if s < dot sv t.2 then (some t, dot sv t.2) else (some b, s))
    ((none : Option (String × Vec)), (0 : ℚ))).1

/-- The free function ::dictionaryInduction (distance.cpp lines 435-456):
for each source entry in order, append the pair (source word, best target
word); nothing is appended when the target list is empty. -/
def dictionaryInductionCore (src trg : List (String × Vec)) :
    List (String × String) :=
  src.filterMap (fun s =>
    match bestTarget s.2 trg with
    | none => none
    | some b => some (s.1, b.1))

/-- The threading branch of BilingualModel::dictionaryInduction
(distance.cpp lines 481-506), taken at the point where the normalized
(word, vector) lists have been prepared (lines 461-479). That preparation is
shared verbatim by the single-thread and multi-thread branches, so the
equivalence claim is stated over arbitrary prepared lists, which covers
every pair of vocabulary lists and every policy. With one thread the scan
runs over the whole source list; with more threads the source list is cut
into threadCount contiguous slices of size src.length / threadCount (the
last slice extending to the end of the list), each slice is scanned against
the shared read-only target list, and the per-slice dictionaries are
concatenated in slice order after the joins, which is the deterministic
result of the parallel run. -/
def dictionaryInductionMT (threadCount : ℕ)
    (src trg : List (String × Vec)) : List (String × String) :=
  if threadCount = 1 then dictionaryInductionCore src trg
  else
    let size := src.length / threadCount
    ((List.range threadCount).map (fun i =>
      dictionaryInductionCore
        (if i = threadCount - 1 then src.drop (i * size)
         else (src.drop (i * size)).take size) trg)).flatten

/-- Concrete prepared source list for the C9 witness. -/
def srcW : List (String × Vec) := [("s1", [1, 0]), ("s2", [0, 1])]

/-- Concrete prepared target list for the C9 witness. -/
def trgW : List (String × Vec) := [("t1", [1, 0]), ("t2", [0, 1])]

/-- The training configuration fields read by the CBOW kernel and its
gradient subroutines (monolingual.cpp lines 586-637, 678-752): dimension,
negative sample count, the objective switches, and the no_average flag. The
field `sig` is modelled from the spec: `sigmoid` and its exp table live in
utils.hpp, which is not under src/; the kernels only apply it pointwise, so
it is carried as a model parameter. MAX_EXP is the spec constant 6. -/
structure TrainConfig where
  dimension : ℕ
  negative : ℕ
  hierarchical_softmax : Bool
  no_average : Bool
  sig : ℚ → ℚ

/-- The HuffmanNode fields consumed by the training kernels: the vocabulary
index and the code and parents sequences assigned by assignCodes. -/
structure TNode where
  index : ℕ
  code : List ℕ
  parents : List ℕ
  deriving DecidableEq

/-- Default node for the vector subscripts (never consulted in range). -/
def defaultTN : TNode := ⟨0, [], []⟩

/-- The mutable weight matrices touched by the CBOW kernel, as functions
from vocabulary index to row. -/
structure TrainState where
  input_weights : ℕ → Vec
  output_weights : ℕ → Vec
  output_weights_hs : ℕ → Vec

/-- The context positions of the reduced window (monolingual.cpp lines
593-600 and 625-631): integer positions from word_pos − tws up to
word_pos + tws, skipping negative positions, positions past the sentence
end, and the center itself. tws stands for this_window_size, the random
draw 1 + rand(window_size) of line 590, passed in as data in place of the
thread-local generator. -/
def windowPositions (word_pos tws len : ℕ) : List ℕ :=
  (List.range (2 * tws + 1)).filterMap (fun k =>
    let p : ℤ := (word_pos : ℤ) - (tws : ℤ) + (k : ℤ)
    if 0 ≤ p ∧ p < (len : ℤ) ∧ p ≠ (word_pos : ℤ) then some p.toNat else none)

/-- The loop body of hierarchicalUpdate (monolingual.cpp lines 733-749) over
the zipped (code bit, parent index) pairs, threading the accumulated error
vector temp and the hierarchical-softmax output matrix: saturated dot
products (|x| ≥ MAX_EXP = 6) are skipped, otherwise the row contributes
−alpha · (sigmoid(x) − bit) times itself to temp and, when update is set,
receives the same scalar times hidden. -/
def hierLoop (cfg : TrainConfig) (hidden : Vec) (alpha : ℚ) (update : Bool) :
    List (ℕ × ℕ) → Vec → (ℕ → Vec) → Vec × (ℕ → Vec)
  | [], temp, hs => (temp, hs)
  | (bit, p) :: rest, temp, hs =>
    let x := dot hidden (hs p)
    if x ≤ -6 ∨ 6 ≤ x then hierLoop cfg hidden alpha update rest temp hs
    else
      let pred := cfg.sig x
      let err := -alpha * (pred - (bit : ℚ))
      hierLoop cfg hidden alpha update rest
        (vadd temp (vsmul err (hs p)))
        (if update then
          Function.update hs p (vadd (hs p) (vsmul err hidden))
        else hs)

/-- MonolingualModel::hierarchicalUpdate (monolingual.cpp lines 730-752). -/
def hierarchicalUpdate (cfg : TrainConfig) (hs : ℕ → Vec) (node : TNode)
    (hidden : Vec) (alpha : ℚ) (update : Bool) : Vec × (ℕ → Vec) :=
  hierLoop cfg hidden alpha update (node.code.zip node.parents)
    (zeroVec cfg.dimension) hs

/-- One iteration body of negSamplingUpdate (monolingual.cpp lines 694-724):
the prediction clamps to 1 above MAX_EXP and to 0 below −MAX_EXP, the error
scalar is alpha · (label − pred), temp accumulates error times the output
row read before the update, and the output row receives error times hidden
when update is set. -/
def negStep (cfg : TrainConfig) (ow : ℕ → Vec) (target : TNode) (label : ℚ)
    (hidden : Vec) (alpha : ℚ) (update : Bool) (temp : Vec) :
    Vec × (ℕ → Vec) :=
  let x := dot hidden (ow target.index)
  let pred : ℚ := if 6 ≤ x then 1 else if x ≤ -6 then 0 else cfg.sig x
  let err := alpha * (label - pred)
  (vadd temp (vsmul err (ow target.index)),
   if update then
     Function.update ow target.index
       (vadd (ow target.index) (vsmul err hidden))
   else ow)

/-- MonolingualModel::negSamplingUpdate (monolingual.cpp lines 678-728):
iteration d = 0 uses the positive example with label 1; iterations
d = 1..negative use the unigram-table draw (modelled by the oracle `draws`
indexed by d, in place of the thread-local generator) with label 0, skipped
entirely when the draw equals the positive node. -/
def negSamplingUpdate (cfg : TrainConfig) (ow : ℕ → Vec) (node : TNode)
    (hidden : Vec) (alpha : ℚ) (update : Bool) (draws : ℕ → TNode) :
    Vec × (ℕ → Vec) :=
  (List.range (cfg.negative + 1)).foldl
    (fun acc d =>
      if d = 0 then negStep cfg acc.2 node 1 hidden alpha update acc.1
      else
        let target := draws d
        if target = node then acc
        else negStep cfg acc.2 target 0 hidden alpha update acc.1)
    (zeroVec cfg.dimension, ow)

/-- MonolingualModel::trainWordCBOW (monolingual.cpp lines 586-637),
transcribed statement by statement: hidden sums the context input rows (and
the sentence vector when present) and count counts the summands; when
count is 0 the kernel returns; when no_average is set the variable count is
reassigned to 1 (line 610), after which hidden /= count and the later
error / count divisions all divide by that reassigned value; the error
vector accumulates the hierarchical-softmax and negative-sampling
contributions; when update is set every context row receives
error / count, and the sentence vector receives error / count whether or
not update is set (lines 634-636). -/
def trainWordCBOW (cfg : TrainConfig) (st : TrainState) (nodes : List TNode)
    (word_pos : ℕ) (sent_vec : Option Vec) (alpha : ℚ) (tws : ℕ)
    (draws : ℕ → TNode) (update : Bool) : TrainState × Option Vec :=
  let cur := nodes.getD word_pos defaultTN
  let ctx := windowPositions word_pos tws nodes.length
  let hidden0 := ctx.foldl
    (fun h p => vadd h (st.input_weights ((nodes.getD p defaultTN).index)))
    (zeroVec cfg.dimension)
  let count1 := ctx.length + (match sent_vec with | some _ => 1 | none => 0)
  let hidden1 := match sent_vec with
    | some sv => vadd hidden0 sv
    | none => hidden0
  if count1 = 0 then (st, sent_vec)
  else
    let count2 : ℕ := if cfg.no_average then 1 else count1
    let hidden := vdivs hidden1 (count2 : ℚ)
    let step1 :=
      if cfg.hierarchical_softmax then
        let r := hierarchicalUpdate cfg st.output_weights_hs cur hidden
          alpha update
        (vadd (zeroVec cfg.dimension) r.1, r.2)
      else (zeroVec cfg.dimension, st.output_weights_hs)
    let step2 :=
      if 0 < cfg.negative then
        let r := negSamplingUpdate cfg st.output_weights cur hidden
          alpha update draws
        (vadd step1.1 r.1, r.2)
      else (step1.1, st.output_weights)
    let error := step2.1
    let input2 :=
      if update then
        ctx.foldl (fun iw p =>
          Function.update iw ((nodes.getD p defaultTN).index)
            (vadd (iw ((nodes.getD p defaultTN).index))
              (vdivs error (count2 : ℚ)))) st.input_weights
      else st.input_weights
    let sv2 := sent_vec.map (fun sv => vadd sv (vdivs error (count2 : ℚ)))
    (⟨input2, step2.2, step1.2⟩, sv2)

/-- The CBOW kernel restated in the language of the amended claim C4: when
no_average is set, the hidden vector passed to the gradient updates is the
unscaled sum and the vector added to each context row and to the sentence
vector is the raw error (no division by the summand count happens, since
the count variable was reassigned to 1); when no_average is not set, hidden
is the mean and the added vector is error divided by the summand count. -/
def trainWordCBOWspec (cfg : TrainConfig) (st : TrainState)
    (nodes : List TNode) (word_pos : ℕ) (sent_vec : Option Vec) (alpha : ℚ)
    (tws : ℕ) (draws : ℕ → TNode) (update : Bool) :
    TrainState × Option Vec :=
  let cur := nodes.getD word_pos defaultTN
  let ctx := windowPositions word_pos tws nodes.length
  let hidden0 := ctx.foldl
    (fun h p => vadd h (st.input_weights ((nodes.getD p defaultTN).index)))
    (zeroVec cfg.dimension)
  let count1 := ctx.length + (match sent_vec with | some _ => 1 | none => 0)
  let hidden1 := match sent_vec with
    | some sv => vadd hidden0 sv
    | none => hidden0
  if count1 = 0 then (st, sent_vec)
  else
    let hidden := if cfg.no_average then hidden1
      else vdivs hidden1 (count1 : ℚ)
    let step1 :=
      if cfg.hierarchical_softmax then
        let r := hierarchicalUpdate cfg st.output_weights_hs cur hidden
          alpha update
        (vadd (zeroVec cfg.dimension) r.1, r.2)
      else (zeroVec cfg.dimension, st.output_weights_hs)
    let step2 :=
      if 0 < cfg.negative then
        let r := negSamplingUpdate cfg st.output_weights cur hidden
          alpha update draws
        (vadd step1.1 r.1, r.2)
      else (step1.1, st.output_weights)
    let error := step2.1
    let delta := if cfg.no_average then error
      else vdivs error (count1 : ℚ)
    let input2 :=
      if update then
        ctx.foldl (fun iw p =>
          Function.update iw ((nodes.getD p defaultTN).index)
            (vadd (iw ((nodes.getD p defaultTN).index)) delta))
          st.input_weights
      else st.input_weights
    let sv2 := sent_vec.map (fun sv => vadd sv delta)
    (⟨input2, step2.2, step1.2⟩, sv2)

/-- The C4 counterexample configuration: dimension 1, hierarchical softmax
on, negative sampling off, no_average set, with the sigmoid oracle constant
1/2 (its value at the one evaluation point only matters as data). -/
def cfgC4 : TrainConfig :=
  { dimension := 1, negative := 0, hierarchical_softmax := true,
    no_average := true, sig := fun _ => 1 / 2 }

/-- The C4 counterexample weights: all input rows [1], all
hierarchical-softmax output rows [1]. -/
def stC4 : TrainState :=
  { input_weights := fun _ => [1], output_weights := fun _ => [0],
    output_weights_hs := fun _ => [1] }

/-- The C4 counterexample sentence: three nodes, the center node carrying
the one-bit code [0] under the internal root 0. -/
def nodesC4 : List TNode := [⟨0, [], []⟩, ⟨1, [0], [0]⟩, ⟨2, [], []⟩]

/-- Unused draw oracle (negative sampling is off in cfgC4). -/
def drawsC4 : ℕ → TNode := fun _ => defaultTN

/-- The accumulation loop of similarityNgrams can fail only with the
out-of-bounds error, never with ShapeMismatch. -/
theorem ngramLoop_ne_shapeMismatch (m : Model) (policy : ℤ) :
    ∀ (l1 l2 : List String) (res : ℚ) (n : ℕ),
      ngramLoop m policy l1 l2 res n ≠ .error .shapeMismatch := by
  intro l1
  induction l1 with
  | nil => intro l2 res n; simp [ngramLoop]
  | cons w1 r1 ih =>
    intro l2 res n
    cases l2 with
    | nil => simp [ngramLoop]
    | cons w2 r2 => simpa [ngramLoop] using ih r2 _ _

/-- C1: the claim states that similarityNgrams averages pairwise similarities
while skipping pairs with an out-of-vocabulary side, returning 1.0 on
seq1 = "x y z", seq2 = "x q z" over vocabulary x, z, and failing AllOOV on
seq1 = "w w", seq2 = "u u" over the empty vocabulary. The code disagrees:
similarity (distance.cpp lines 10-23) returns 0.0 on OOV words and never
throws, so the catch block in similarityNgrams (line 114) is dead, every pair
contributes to the average (OOV pairs contribute 0.0), and the AllOOV throw
is unreachable for a non-empty seq1. Evaluating the embedded code at the two
specified inputs: the first call returns 2/3 (not 1.0) and the second returns
0.0 (not an AllOOV failure). -/
theorem C1_similarityNgrams_counts_oov_pairs :
    mXZ.similarityNgrams "x y z" "x q z" 0 = .ok (2 / 3) ∧
    mEmptyVocab.similarityNgrams "w w" "u u" 0 = .ok 0 := by
  constructor
  · have h1 : split "x y z" = ["x", "y", "z"] := by decide
    have h2 : split "x q z" = ["x", "q", "z"] := by decide
    simp [Model.similarityNgrams, h1, h2, ngramLoop, Model.similarity,
      Model.find, mXZ, List.find?]
    norm_num
  · have h1 : split "w w" = ["w", "w"] := by decide
    have h2 : split "u u" = ["u", "u"] := by decide
    simp [Model.similarityNgrams, h1, h2, ngramLoop, Model.similarity,
      Model.find, mEmptyVocab, List.find?]

/-- C2: the claim states that similarityNgrams fails with ShapeMismatch
whenever the two token sequences have different lengths. The code compares
`words2.size() != words2.size()` (distance.cpp line 103), which is always
false, so the guard never fires: no input at all produces ShapeMismatch, and
the concrete mismatched call seq1 = "a", seq2 = "a b" over vocabulary a
returns 1.0 instead of failing. -/
theorem C2_shapeMismatch_never_raised :
    (∀ (m : Model) (s1 s2 : String) (policy : ℤ),
      m.similarityNgrams s1 s2 policy ≠ .error .shapeMismatch) ∧
    mA.similarityNgrams "a" "a b" 0 = .ok 1 := by
  constructor
  · intro m s1 s2 policy
    simp only [Model.similarityNgrams]
    have hcond : ¬((split s2).length ≠ (split s2).length) := fun h => h rfl
    rw [if_neg hcond]
    have hl := ngramLoop_ne_shapeMismatch m policy (split s1) (split s2) 0 0
    rcases hng : ngramLoop m policy (split s1) (split s2) 0 0 with e | ⟨res, n⟩
    · rw [hng] at hl
      simpa using hl
    · by_cases hn : n = 0 <;> simp [hn]
  · have h1 : split "a" = ["a"] := by decide
    have h2 : split "a b" = ["a", "b"] := by decide
    simp [Model.similarityNgrams, h1, h2, ngramLoop, Model.similarity,
      Model.find, mA, List.find?]

/-- C3 counterexample: the claim states that wordVec(w, p) fails with
InvalidInput for p in 1, 2, 3 whenever the configuration has negative == 0.
In the code (monolingual.cpp lines 308-329) the three policy branches are
guarded by `policy == k && config->negative > 0`, and when negative is 0 all
three fall through to the final else, silently returning the input weights:
on the concrete model mN0 (negative = 0, word a in vocabulary, input row [5])
the call wordVec("a", 1) succeeds with the input row instead of failing. -/
theorem C3_counterexample_policy_negative0 :
    mN0.negative = 0 ∧ mN0.wordVec "a" 1 = .ok [5] := by
  constructor
  · rfl
  · simp [Model.wordVec, Model.find, mN0, List.find?, Model.wordVecIdx]

/-- C3 amended: for an in-vocabulary word, wordVec never fails on account of
the policy; with negative == 0 every policy returns the input weights (the
claimed InvalidInput failure does not exist), and with negative > 0 policy 1
returns the concatenation of input and output weights (of length 2D when the
rows have length D), policy 2 their elementwise sum, and policy 3 the output
weights; the only failure of wordVec is OOV on an unknown word. -/
theorem C3_wordVec_policy_fallback (m : Model) (word : String) (index : ℕ)
    (policy : ℤ) (hfind : m.find word = some index) :
    (m.negative = 0 → m.wordVec word policy = .ok (m.input_weights index)) ∧
    (0 < m.negative →
      (policy = 1 → m.wordVec word policy =
        .ok (m.input_weights index ++ m.output_weights index)) ∧
      (policy = 2 → m.wordVec word policy =
        .ok (vadd (m.input_weights index) (m.output_weights index))) ∧
      (policy = 3 → m.wordVec word policy = .ok (m.output_weights index))) ∧
    ((m.input_weights index).length = m.dimension →
      (m.output_weights index).length = m.dimension →
      0 < m.negative → policy = 1 →
      (m.wordVecIdx index policy).length = 2 * m.dimension) ∧
    (∀ w2, m.find w2 = none → m.wordVec w2 policy = .error .oov) := by
  refine ⟨?_, ?_, ?_, ?_⟩
  · intro h0
    simp [Model.wordVec, hfind, Model.wordVecIdx, h0]
  · intro hneg
    refine ⟨?_, ?_, ?_⟩
    · intro h1
      simp [Model.wordVec, hfind, Model.wordVecIdx, h1, hneg]
    · intro h2
      simp [Model.wordVec, hfind, Model.wordVecIdx, h2, hneg]
    · intro h3
      simp [Model.wordVec, hfind, Model.wordVecIdx, h3, hneg]
  · intro hin hout hneg h1
    simp [Model.wordVecIdx, h1, hneg, hin, hout, two_mul]
  · intro w2 hw2
    simp [Model.wordVec, hw2]

/-- Witness for C3: on the concrete model mW (negative = 1) the theorem
yields the concatenation behaviour of policy 1 at the in-vocabulary word. -/
theorem C3_wordVec_policy_fallback_witness :
    mW.wordVec "a" 1 = .ok (mW.input_weights 0 ++ mW.output_weights 0) :=
  ((C3_wordVec_policy_fallback mW "a" 0 1
    (by simp [Model.find, mW, List.find?])).2.1 (by decide)).1 rfl

/-- C5 counterexample: on a two-word vocabulary the claim asserts that
closest("a", n) with n = 2 ≥ |vocabulary| − 1 is still well defined and
returns all other terms. In the code the candidate list for "a" has a single
entry, and std::partial_sort is called with the middle iterator res.begin()+2
past res.end(), which violates its precondition (undefined behaviour); the
embedded code therefore reports the undefined-behaviour error rather than a
result. -/
theorem C5_counterexample_partial_sort_past_end :
    mAB.closest "a" 2 0 = .error .undefinedBehavior := by
  simp [Model.closest, Model.find, mAB, List.find?, Model.closestRes,
    List.filterMap]

/-- C5 amended: closest(w, n, policy) fails with OOV when w is absent; when w
resolves to an index and n does not exceed the number of candidates (the
other vocabulary entries), it returns exactly n results sorted by similarity
descending, none of which is w itself (given that vocabulary words are
distinct), and when n equals the candidate count the result is a permutation
of all other terms; when n is strictly larger than the candidate count the
partial sort precondition is violated and the call is undefined behaviour
instead of being well defined. -/
theorem C5_closest_sorted_bounded (m : Model) (word : String) (n : ℕ)
    (policy : ℤ) :
    (m.find word = none → m.closest word n policy = .error .oov) ∧
    (∀ index, m.find word = some index →
      ((m.closestRes index policy).length < n →
        m.closest word n policy = .error .undefinedBehavior) ∧
      (n ≤ (m.closestRes index policy).length →
        ∃ l, m.closest word n policy = .ok l ∧
          l.length = n ∧
          List.Sorted simDescOrder l ∧
          ((m.vocab.map Prod.fst).Nodup → word ∉ l.map Prod.fst) ∧
          (n = (m.closestRes index policy).length →
            l.Perm (m.closestRes index policy)))) := by
  constructor
  · intro hnone
    simp [Model.closest, hnone]
  · intro index hfind
    constructor
    · intro hlt
      simp only [Model.closest, hfind]
      rw [if_neg (not_le.mpr hlt)]
    · intro hn
      refine ⟨(List.insertionSort simDescOrder (m.closestRes index policy)).take n,
        ?_, ?_, ?_, ?_, ?_⟩
      · simp only [Model.closest, hfind]
        rw [if_pos hn]
      · rw [List.length_take, (List.perm_insertionSort simDescOrder _).length_eq]
        exact min_eq_left hn
      · exact List.Pairwise.sublist (List.take_sublist n _)
          (List.sorted_insertionSort simDescOrder _)
      · intro hnodup hmem
        rcases List.mem_map.mp hmem with ⟨⟨w, q⟩, hwl, hw⟩
        have hwres : (w, q) ∈ m.closestRes index policy :=
          (List.perm_insertionSort simDescOrder _).mem_iff.mp
            ((List.take_sublist n _).mem hwl)
        rcases List.mem_filterMap.mp hwres with ⟨e, he, heq⟩
        by_cases hidx : e.2 ≠ index
        · rw [if_pos hidx] at heq
          have he1 : e.1 = w := congrArg Prod.fst (Option.some.inj heq)
          rcases Option.map_eq_some'.mp hfind with ⟨f, hf, hf2⟩
          have hfmem : f ∈ m.vocab := List.mem_of_find?_eq_some hf
          have hf1 : f.1 = word := by
            have := List.find?_some hf
            simpa using this
          have hef : e = f := List.inj_on_of_nodup_map hnodup he hfmem
            (by rw [he1, hf1]; exact hw)
          exact hidx (by rw [hef, hf2])
        · rw [if_neg hidx] at heq
          exact Option.noConfusion heq
      · intro hlen
        rw [hlen, ← (List.perm_insertionSort simDescOrder
          (m.closestRes index policy)).length_eq, List.take_length]
        exact List.perm_insertionSort simDescOrder _

/-- Witness for C5: the amended theorem applied to the concrete model mAB at
word a with n = 1. -/
theorem C5_closest_sorted_bounded_witness :
    ∃ l, mAB.closest "a" 1 0 = .ok l ∧ l.length = 1 ∧
      List.Sorted simDescOrder l ∧
      ((mAB.vocab.map Prod.fst).Nodup → "a" ∉ l.map Prod.fst) ∧
      (1 = (mAB.closestRes 0 0).length → l.Perm (mAB.closestRes 0 0)) :=
  ((C5_closest_sorted_bounded mAB "a" 1 0).2 0
    (by simp [Model.find, mAB, List.find?])).2
    (by simp [Model.closestRes, mAB, List.filterMap])

/-- First DP row: d[0][j] = j. -/
theorem softWERcol_zero (sub : ℕ → ℕ → ℚ) (j : ℕ) :
    softWERcol sub 0 j = (j : ℚ) := rfl

/-- First DP column entry of a successor row: d[i+1][0] = i + 1. -/
theorem softWERcol_succ_zero (sub : ℕ → ℕ → ℚ) (i : ℕ) :
    softWERcol sub (i + 1) 0 = (i : ℚ) + 1 := rfl

/-- Inner DP cell: the three-way minimum of the softWER recurrence. -/
theorem softWERcol_succ_succ (sub : ℕ → ℕ → ℚ) (i j : ℕ) :
    softWERcol sub (i + 1) (j + 1) =
      min (min (softWERcol sub i (j + 1) + 1) (softWERcol sub (i + 1) j + 1))
        (softWERcol sub i j + sub i j) := rfl

/-- The row-by-row table of the code computes the spec DP. -/
theorem softWERcol_eq_levDP (sub : ℕ → ℕ → ℚ) :
    ∀ i j, softWERcol sub i j = levDP sub i j := by
  intro i
  induction i with
  | zero =>
    intro j
    cases j with
    | zero => simp [softWERcol_zero, levDP]
    | succ j => simp [softWERcol_zero, levDP]
  | succ i ih =>
    intro j
    induction j with
    | zero => simp [softWERcol_succ_zero, levDP]
    | succ j ihj =>
      rw [softWERcol_succ_succ, ih (j + 1), ihj, ih j]
      rw [levDP]

/-- With nonnegative substitution costs every DP entry is nonnegative. -/
theorem softWERcol_nonneg (sub : ℕ → ℕ → ℚ) (hsub : ∀ i j, 0 ≤ sub i j) :
    ∀ i j, 0 ≤ softWERcol sub i j := by
  intro i
  induction i with
  | zero =>
    intro j
    rw [softWERcol_zero]
    exact Nat.cast_nonneg j
  | succ i ih =>
    intro j
    induction j with
    | zero =>
      rw [softWERcol_succ_zero]
      have h0 : (0 : ℚ) ≤ (i : ℚ) := Nat.cast_nonneg i
      linarith
    | succ j ihj =>
      rw [softWERcol_succ_succ]
      have h1 := ih (j + 1)
      have h3 := ih j
      have h4 := hsub i j
      rw [le_min_iff, le_min_iff]
      exact ⟨⟨by linarith, by linarith⟩, by linarith⟩

/-- With nonnegative substitution costs and zero diagonal costs below n, the
diagonal DP entry d[n][n] is zero. -/
theorem softWERcol_diag (sub : ℕ → ℕ → ℚ) (hsub : ∀ i j, 0 ≤ sub i j) :
    ∀ n, (∀ i < n, sub i i = 0) → softWERcol sub n n = 0 := by
  intro n
  induction n with
  | zero =>
    intro _
    rw [softWERcol_zero]
    norm_num
  | succ n ih =>
    intro hdiag
    have hprev : softWERcol sub n n = 0 :=
      ih (fun i hi => hdiag i (Nat.lt_succ_of_lt hi))
    have hd : sub n n = 0 := hdiag n (Nat.lt_succ_self n)
    have hge := softWERcol_nonneg sub hsub (n + 1) (n + 1)
    have hle : softWERcol sub (n + 1) (n + 1) ≤ 0 := by
      rw [softWERcol_succ_succ]
      exact le_trans (min_le_right _ _) (by rw [hprev, hd]; norm_num)
    exact le_antisymm hle hge

/-- First-column DP values: d[i][0] = i. -/
theorem softWERcol_len_zero (sub : ℕ → ℕ → ℚ) :
    ∀ i, softWERcol sub i 0 = (i : ℚ) := by
  intro i
  cases i with
  | zero => rw [softWERcol_zero]
  | succ i =>
    rw [softWERcol_succ_zero]
    push_cast
    ring

/-- The similarity score never exceeds 1: it is 0 on OOV, 1 on equal indices,
and bounded by the cosine bound otherwise. -/
theorem similarity_le_one (m : Model) (hcos : ∀ v1 v2, m.cosSim v1 v2 ≤ 1)
    (w1 w2 : String) (policy : ℤ) : m.similarity w1 w2 policy ≤ 1 := by
  cases h1 : m.find w1 with
  | none => simp [Model.similarity, h1]
  | some i1 =>
    cases h2 : m.find w2 with
    | none => simp [Model.similarity, h1, h2]
    | some i2 =>
      by_cases he : i1 = i2
      · simp [Model.similarity, h1, h2, he]
      · simp only [Model.similarity, h1, h2, if_neg he]
        exact hcos _ _

/-- Substitution costs of softWER are nonnegative under the cosine bound. -/
theorem softWERsub_nonneg (m : Model) (hcos : ∀ v1 v2, m.cosSim v1 v2 ≤ 1)
    (s1 s2 : List String) (policy : ℤ) :
    ∀ i j, 0 ≤ m.softWERsub s1 s2 policy i j := by
  intro i j
  unfold Model.softWERsub Model.distance
  have h := similarity_le_one m hcos (s1.getD i "") (s2.getD j "") policy
  linarith

/-- Diagonal substitution costs vanish when the two sequences are the same
in-vocabulary token sequence. -/
theorem softWERsub_self (m : Model) (s : List String) (policy : ℤ)
    (hv : ∀ w ∈ s, (m.find w).isSome) :
    ∀ i < s.length, m.softWERsub s s policy i i = 0 := by
  intro i hi
  unfold Model.softWERsub Model.distance
  set w := s.getD i "" with hw
  have hmem : w ∈ s := by
    rw [hw, List.getD_eq_getElem s "" hi]
    exact List.getElem_mem hi
  obtain ⟨k, hk⟩ := Option.isSome_iff_exists.mp (hv _ hmem)
  simp [Model.similarity, hk]

/-- C6: softWER equals the spec Levenshtein dynamic program (base cases
d[0][0] = 0, d[i][0] = i, d[0][j] = j; insertion and deletion cost 1;
substitution cost distance) normalized by the reference token count;
softWER(hyp, hyp) = 0 for every hyp with no out-of-vocabulary token; and
softWER("a b", "a b c") = 1/3 whenever a, b, c are all in vocabulary. The
cosine-bound hypothesis is the defining property of cosineSimilarity, which
lives in utils.hpp outside the verified sources. -/
theorem C6_softWER_levenshtein (m : Model) (policy : ℤ)
    (hcos : ∀ v1 v2, m.cosSim v1 v2 ≤ 1) :
    (∀ hyp ref, m.softWER hyp ref policy =
      levDP (m.softWERsub (split hyp) (split ref) policy)
        (split hyp).length (split ref).length / ((split ref).length : ℚ)) ∧
    (∀ hyp, split hyp ≠ [] → (∀ w ∈ split hyp, (m.find w).isSome) →
      m.softWER hyp hyp policy = 0) ∧
    ((m.find "a").isSome → (m.find "b").isSome → (m.find "c").isSome →
      m.softWER "a b" "a b c" policy = 1 / 3) := by
  refine ⟨?_, ?_, ?_⟩
  · intro hyp ref
    unfold Model.softWER Model.softWERnum Model.softWERden
    rw [softWERcol_eq_levDP]
  · intro hyp _ hv
    unfold Model.softWER Model.softWERnum Model.softWERden
    rw [softWERcol_diag _ (softWERsub_nonneg m hcos _ _ policy) _
      (softWERsub_self m (split hyp) policy hv), zero_div]
  · intro ha hb hc
    have h1 : split "a b" = ["a", "b"] := by decide
    have h2 : split "a b c" = ["a", "b", "c"] := by decide
    obtain ⟨ia, hia⟩ := Option.isSome_iff_exists.mp ha
    obtain ⟨ib, hib⟩ := Option.isSome_iff_exists.mp hb
    have hnum : m.softWERnum "a b" "a b c" policy = 1 := by
      unfold Model.softWERnum
      rw [h1, h2]
      show softWERcol (m.softWERsub ["a", "b"] ["a", "b", "c"] policy) 2 3 = 1
      set sub := m.softWERsub ["a", "b"] ["a", "b", "c"] policy with hsubdef
      have hnn : ∀ i j, 0 ≤ sub i j := by
        intro i j
        rw [hsubdef]
        exact softWERsub_nonneg m hcos _ _ policy i j
      have hq01 := hnn 0 1
      have hq02 := hnn 0 2
      have hq10 := hnn 1 0
      have hq12 := hnn 1 2
      have h00 : sub 0 0 = 0 := by
        rw [hsubdef]
        simp only [Model.softWERsub, List.getD_cons_zero]
        simp [Model.distance, Model.similarity, hia]
      have h11 : sub 1 1 = 0 := by
        rw [hsubdef]
        simp only [Model.softWERsub, List.getD_cons_succ, List.getD_cons_zero]
        simp [Model.distance, Model.similarity, hib]
      have d00 : softWERcol sub 0 0 = 0 := by rw [softWERcol_zero]; norm_num
      have r01 : softWERcol sub 0 1 = 1 := by rw [softWERcol_zero]; norm_num
      have r02 : softWERcol sub 0 2 = 2 := by rw [softWERcol_zero]; norm_num
      have r03 : softWERcol sub 0 3 = 3 := by rw [softWERcol_zero]; norm_num
      have c10 : softWERcol sub 1 0 = 1 := by
        rw [show softWERcol sub 1 0 = ((0 : ℕ) : ℚ) + 1 from rfl]
        norm_num
      have c20 : softWERcol sub 2 0 = 2 := by
        rw [show softWERcol sub 2 0 = ((1 : ℕ) : ℚ) + 1 from rfl]
        norm_num
      have e11 : softWERcol sub 1 1 =
          min (min (softWERcol sub 0 1 + 1) (softWERcol sub 1 0 + 1))
            (softWERcol sub 0 0 + sub 0 0) := rfl
      have d11 : softWERcol sub 1 1 = 0 := by
        rw [e11, r01, c10, d00, h00]
        norm_num [min_def]
      have e12 : softWERcol sub 1 2 =
          min (min (softWERcol sub 0 2 + 1) (softWERcol sub 1 1 + 1))
            (softWERcol sub 0 1 + sub 0 1) := rfl
      have d12 : softWERcol sub 1 2 = 1 := by
        rw [e12, r02, d11, r01]
        rw [show min ((2 : ℚ) + 1) ((0 : ℚ) + 1) = 1 by norm_num [min_def]]
        exact min_eq_left (by linarith)
      have e13 : softWERcol sub 1 3 =
          min (min (softWERcol sub 0 3 + 1) (softWERcol sub 1 2 + 1))
            (softWERcol sub 0 2 + sub 0 2) := rfl
      have d13 : softWERcol sub 1 3 = 2 := by
        rw [e13, r03, d12, r02]
        rw [show min ((3 : ℚ) + 1) ((1 : ℚ) + 1) = 2 by norm_num [min_def]]
        exact min_eq_left (by linarith)
      have e21 : softWERcol sub 2 1 =
          min (min (softWERcol sub 1 1 + 1) (softWERcol sub 2 0 + 1))
            (softWERcol sub 1 0 + sub 1 0) := rfl
      have d21 : softWERcol sub 2 1 = 1 := by
        rw [e21, d11, c20, c10]
        rw [show min ((0 : ℚ) + 1) ((2 : ℚ) + 1) = 1 by norm_num [min_def]]
        exact min_eq_left (by linarith)
      have e22 : softWERcol sub 2 2 =
          min (min (softWERcol sub 1 2 + 1) (softWERcol sub 2 1 + 1))
            (softWERcol sub 1 1 + sub 1 1) := rfl
      have d22 : softWERcol sub 2 2 = 0 := by
        rw [e22, d12, d21, d11, h11]
        norm_num [min_def]
      have e23 : softWERcol sub 2 3 =
          min (min (softWERcol sub 1 3 + 1) (softWERcol sub 2 2 + 1))
            (softWERcol sub 1 2 + sub 1 2) := rfl
      rw [e23, d13, d22, d12]
      rw [show min ((2 : ℚ) + 1) ((0 : ℚ) + 1) = 1 by norm_num [min_def]]
      exact min_eq_left (by linarith)
    have hden : m.softWERden "a b" "a b c" = 3 := by
      unfold Model.softWERden
      rw [h2]
      norm_num
    unfold Model.softWER
    rw [hnum, hden]

/-- Witness for C6: the theorem applied to the concrete model mABC gives the
1/3 value of scenario S2. -/
theorem C6_softWER_levenshtein_witness :
    mABC.softWER "a b" "a b c" 0 = 1 / 3 :=
  (C6_softWER_levenshtein mABC 0 (fun _ _ => by simp [mABC])).2.2
    (by simp [Model.find, mABC, List.find?])
    (by simp [Model.find, mABC, List.find?])
    (by simp [Model.find, mABC, List.find?])

/-- C10: when the reference tokenizes to nothing, the public softWER divides
the DP value d[len1][0] = len1 (the hypothesis token count) by the reference
length 0, with no guard anywhere on the path: the divisor is exactly 0. -/
theorem C10_softWER_empty_reference (m : Model) (hyp ref : String)
    (policy : ℤ) (h : split ref = []) :
    m.softWERden hyp ref = 0 ∧
    m.softWERnum hyp ref policy = ((split hyp).length : ℚ) ∧
    m.softWER hyp ref policy = m.softWERnum hyp ref policy / 0 := by
  refine ⟨?_, ?_, ?_⟩
  · unfold Model.softWERden
    rw [h]
    norm_num
  · unfold Model.softWERnum
    rw [h]
    exact softWERcol_len_zero _ _
  · unfold Model.softWER
    have hd : m.softWERden hyp ref = 0 := by
      unfold Model.softWERden
      simp [h]
    rw [hd]

/-- Witness for C10: the concrete model mA with hyp = "a b" and an empty
reference string. -/
theorem C10_softWER_empty_reference_witness :
    mA.softWERden "a b" "" = 0 ∧
    mA.softWERnum "a b" "" 0 = ((split "a b").length : ℚ) ∧
    mA.softWER "a b" "" 0 = mA.softWERnum "a b" "" 0 / 0 :=
  C10_softWER_empty_reference mA "a b" "" 0 (by decide)

/-- The clamped learning-rate update is the maximum of the floor value and
the raw linear decay. -/
theorem updateAlpha_eq_max (cfg : ChunkConfig) (wp : ℕ) :
    updateAlpha cfg wp = max (cfg.starting_alpha * (1 / 10000))
      (cfg.starting_alpha * (1 - (wp : ℚ) /
        ((cfg.iterations : ℚ) * (cfg.training_words : ℚ)))) := by
  simp only [updateAlpha]
  split_ifs with h
  · rw [max_eq_left (le_of_lt h)]
  · rw [max_eq_right (not_lt.mp h)]

/-- C7: along every trace of flush steps the global counter words_processed
is monotonically non-decreasing, and the learning rate recomputed by a
worker from the growing counter is non-increasing, bounded below by
starting_alpha * 0.0001, and never exceeds its initial value
starting_alpha. The positivity of the starting learning rate is the spec
constraint learning_rate > 0. -/
theorem C7_training_progress (cfg : ChunkConfig) (wp wp2 : ℕ)
    (halpha : 0 < cfg.starting_alpha)
    (hreach : Relation.ReflTransGen FlushStep wp wp2) :
    wp ≤ wp2 ∧
    updateAlpha cfg wp2 ≤ updateAlpha cfg wp ∧
    cfg.starting_alpha * (1 / 10000) ≤ updateAlpha cfg wp2 ∧
    updateAlpha cfg wp ≤ cfg.starting_alpha := by
  have hle : wp ≤ wp2 := by
    induction hreach with
    | refl => exact le_refl wp
    | tail _ hstep ih =>
      rcases hstep with ⟨w, hw⟩
      subst hw
      exact le_trans ih (Nat.le_add_right _ _)
  have hmono : ∀ a b : ℕ, a ≤ b → updateAlpha cfg b ≤ updateAlpha cfg a := by
    intro a b hab
    rw [updateAlpha_eq_max, updateAlpha_eq_max]
    refine max_le_max (le_refl _) ?_
    apply mul_le_mul_of_nonneg_left ?_ (le_of_lt halpha)
    have hT : (0 : ℚ) ≤ (cfg.iterations : ℚ) * (cfg.training_words : ℚ) :=
      mul_nonneg (Nat.cast_nonneg _) (Nat.cast_nonneg _)
    rcases eq_or_lt_of_le hT with hT0 | hTpos
    · rw [← hT0, div_zero, div_zero]
    · have hdiv : (a : ℚ) / ((cfg.iterations : ℚ) * (cfg.training_words : ℚ)) ≤
          (b : ℚ) / ((cfg.iterations : ℚ) * (cfg.training_words : ℚ)) :=
        (div_le_div_right hTpos).mpr (by exact_mod_cast hab)
      linarith
  have hlow : ∀ a : ℕ, cfg.starting_alpha * (1 / 10000) ≤ updateAlpha cfg a := by
    intro a
    rw [updateAlpha_eq_max]
    exact le_max_left _ _
  have hup : updateAlpha cfg wp ≤ cfg.starting_alpha := by
    rw [updateAlpha_eq_max]
    refine max_le ?_ ?_
    · linarith
    · have hx : (0 : ℚ) ≤
          (wp : ℚ) / ((cfg.iterations : ℚ) * (cfg.training_words : ℚ)) :=
        div_nonneg (Nat.cast_nonneg _)
          (mul_nonneg (Nat.cast_nonneg _) (Nat.cast_nonneg _))
      nlinarith [mul_nonneg (le_of_lt halpha) hx]
  exact ⟨hle, hmono wp wp2 hle, hlow wp2, hup⟩

/-- Witness for C7: a concrete trace adding 3 words in one flush. -/
theorem C7_training_progress_witness :
    0 ≤ 3 ∧ updateAlpha cfgChunk 3 ≤ updateAlpha cfgChunk 0 ∧
      cfgChunk.starting_alpha * (1 / 10000) ≤ updateAlpha cfgChunk 3 ∧
      updateAlpha cfgChunk 0 ≤ cfgChunk.starting_alpha :=
  C7_training_progress cfgChunk 0 3 (by norm_num [cfgChunk])
    (Relation.ReflTransGen.single ⟨3, rfl⟩)

/-- Generalized code/parents invariant of assignCodes: every leaf record
extends the accumulators with sequences of equal length, and following the
extension bits from the subtree root visits exactly the recorded internal
indices and ends at that leaf. -/
theorem assignCodes_spec (t : HTree) :
    ∀ (c0 p0 : List ℕ) e, e ∈ assignCodes t c0 p0 →
      ∃ c p, e.2.1 = c0 ++ c ∧ e.2.2 = p0 ++ p ∧ c.length = p.length ∧
        pathNodes t c = some (p, e.1) := by
  induction t with
  | leaf w i cnt =>
    intro c0 p0 e he
    simp only [assignCodes, List.mem_singleton] at he
    subst he
    exact ⟨[], [], by simp, by simp, rfl, rfl⟩
  | node i l r ihl ihr =>
    intro c0 p0 e he
    simp only [assignCodes, List.mem_append] at he
    rcases he with hl | hr
    · rcases ihl (c0 ++ [0]) (p0 ++ [i]) e hl with ⟨c, p, hc, hp, hlen, hpath⟩
      refine ⟨0 :: c, i :: p, ?_, ?_, ?_, ?_⟩
      · simp [hc]
      · simp [hp]
      · simp [hlen]
      · simp [pathNodes, hpath]
    · rcases ihr (c0 ++ [1]) (p0 ++ [i]) e hr with ⟨c, p, hc, hp, hlen, hpath⟩
      refine ⟨1 :: c, i :: p, ?_, ?_, ?_, ?_⟩
      · simp [hc]
      · simp [hp]
      · simp [hlen]
      · simp [pathNodes, hpath]

/-- C8: after createBinaryTree builds the tree from a non-empty vocabulary
and assignCodes labels it from the root with empty accumulators, every leaf
record (word, code, parents) satisfies len(code) = len(parents), and
descending from the root by the code bits (0 to the left child, 1 to the
right child of the node at parents[j]) visits exactly the internal nodes
listed in parents, in root-to-leaf order, ending at that leaf. -/
theorem C8_huffman_codes_parents (leaves : List HTree) (t : HTree)
    (hbuild : createBinaryTree leaves = some t) :
    ∀ e ∈ assignCodes t [] [],
      (e.2.1).length = (e.2.2).length ∧
      pathNodes t e.2.1 = some (e.2.2, e.1) := by
  intro e he
  rcases assignCodes_spec t [] [] e he with ⟨c, p, hc, hp, hlen, hpath⟩
  have hc2 : e.2.1 = c := by simpa using hc
  have hp2 : e.2.2 = p := by simpa using hp
  rw [hc2, hp2]
  exact ⟨hlen, hpath⟩

/-- Witness for C8: the scenario S6 counts 5, 3, 3, 1 build the concrete
tree huffTreeW, and the theorem applies to the leaf record of w1. -/
theorem C8_huffman_codes_parents_witness :
    createBinaryTree huffLeaves = some huffTreeW ∧
    (((("w1", [0], [2]) : String × List ℕ × List ℕ).2.1).length =
        ((("w1", [0], [2]) : String × List ℕ × List ℕ).2.2).length ∧
      pathNodes huffTreeW [0] = some ([2], "w1")) :=
  ⟨by decide,
    C8_huffman_codes_parents huffLeaves huffTreeW (by decide)
      ("w1", [0], [2]) (by decide)⟩

/-- Contiguous slices of size s, the last slice taking the remainder, tile
the whole list. -/
theorem slices_flatten {α : Type} (s : ℕ) :
    ∀ (tc : ℕ), 1 ≤ tc → ∀ (l : List α),
      ((List.range tc).map (fun i =>
        if i = tc - 1 then l.drop (i * s)
        else (l.drop (i * s)).take s)).flatten = l := by
  intro tc
  induction tc with
  | zero => intro h; exact absurd h (by norm_num)
  | succ tc ih =>
    intro _ l
    rcases Nat.eq_zero_or_pos tc with h0 | hpos
    · subst h0
      simp [List.range_succ]
    · rw [List.range_succ_eq_map, List.map_cons, List.flatten_cons,
        List.map_map]
      rw [if_neg (by omega : ¬(0 = tc + 1 - 1))]
      have hmap : (List.range tc).map ((fun i =>
          if i = tc + 1 - 1 then l.drop (i * s)
          else (l.drop (i * s)).take s) ∘ Nat.succ) =
          (List.range tc).map (fun i =>
            if i = tc - 1 then (l.drop s).drop (i * s)
            else ((l.drop s).drop (i * s)).take s) := by
        apply List.map_congr_left
        intro i _
        simp only [Function.comp_apply]
        by_cases hc : i = tc - 1
        · rw [if_pos (by omega : i + 1 = tc + 1 - 1), if_pos hc,
            List.drop_drop]
          congr 1
          rw [Nat.succ_mul]
          ring
        · rw [if_neg (by omega : ¬(i + 1 = tc + 1 - 1)), if_neg hc,
            List.drop_drop]
          congr 2
          rw [Nat.succ_mul]
          ring
      rw [hmap, ih hpos (l.drop s)]
      simp only [Nat.zero_mul, List.drop_zero]
      exact List.take_append_drop s l

/-- Appending the per-sublist scans equals scanning the appended list. -/
theorem dictionaryInductionCore_flatten (trg : List (String × Vec)) :
    ∀ (L : List (List (String × Vec))),
      (L.map (fun l => dictionaryInductionCore l trg)).flatten =
        dictionaryInductionCore L.flatten trg := by
  intro L
  induction L with
  | nil => rfl
  | cons a L ih =>
    simp only [List.map_cons, List.flatten_cons, ih]
    unfold dictionaryInductionCore
    rw [← List.filterMap_append]

/-- C9: for every prepared source and target list and every thread count at
least 1, the multi-threaded dictionary induction returns exactly the same
ordered list of (source word, target word) pairs as the single-threaded
scan. -/
theorem C9_dictionaryInduction_threads (threadCount : ℕ)
    (src trg : List (String × Vec)) (h : 1 ≤ threadCount) :
    dictionaryInductionMT threadCount src trg =
      dictionaryInductionCore src trg := by
  by_cases h1 : threadCount = 1
  · simp only [dictionaryInductionMT]
    rw [if_pos h1]
  · simp only [dictionaryInductionMT]
    rw [if_neg h1]
    rw [show ((List.range threadCount).map (fun i =>
        dictionaryInductionCore
          (if i = threadCount - 1 then
            src.drop (i * (src.length / threadCount))
           else (src.drop (i * (src.length / threadCount))).take
             (src.length / threadCount)) trg)) =
      (((List.range threadCount).map (fun i =>
        if i = threadCount - 1 then
          src.drop (i * (src.length / threadCount))
        else (src.drop (i * (src.length / threadCount))).take
          (src.length / threadCount))).map
            (fun l => dictionaryInductionCore l trg)) from
      (List.map_map _ _ _).symm]
    rw [dictionaryInductionCore_flatten trg,
      slices_flatten (src.length / threadCount) threadCount h src]

/-- Witness for C9: two threads on concrete two-entry lists. -/
theorem C9_dictionaryInduction_threads_witness :
    dictionaryInductionMT 2 srcW trgW = dictionaryInductionCore srcW trgW :=
  C9_dictionaryInduction_threads 2 srcW trgW (by norm_num)

/-- Dividing a vector by the scalar 1 changes nothing. -/
theorem vdivs_one (v : Vec) : vdivs v 1 = v := by
  unfold vdivs
  simp

/-- C4 counterexample: with no_average set, two context summands
(count = 2), hierarchical softmax on and update requested, the kernel adds
the raw error vector to the context row: the row [1] becomes [1/2], whereas
the claim (error still divided by the summand count 2) predicts
[1] + error/2 = [3/4]. The second conjunct computes the claim-predicted
value from the same gradient error (obtained on the unscaled sum hidden
vector [2], as the claim itself specifies), and the third conjunct
separates the two. -/
theorem C4_counterexample_error_not_divided :
    (trainWordCBOW cfgC4 stC4 nodesC4 1 none 1 1 drawsC4
      true).1.input_weights 0 = [1 / 2] ∧
    vadd (stC4.input_weights 0)
      (vdivs (hierarchicalUpdate cfgC4 stC4.output_weights_hs
        (nodesC4.getD 1 defaultTN) [2] 1 true).1 2) = [3 / 4] ∧
    ([1 / 2] : Vec) ≠ [3 / 4] := by
  refine ⟨?_, ?_, ?_⟩
  · have hw : windowPositions 1 1 3 = [0, 2] := by decide
    norm_num [trainWordCBOW, hw, hierarchicalUpdate, hierLoop,
      negSamplingUpdate, negStep, vadd, vsmul, vdivs, dot, zeroVec,
      Function.update, cfgC4, stC4, nodesC4, drawsC4, defaultTN, List.foldl,
      List.zipWith, List.replicate]
  · norm_num [hierarchicalUpdate, hierLoop, vadd, vsmul, vdivs, dot, zeroVec,
      Function.update, cfgC4, stC4, nodesC4, defaultTN, List.zipWith,
      List.replicate]
  · intro h
    have := List.head_eq_of_cons_eq h
    norm_num at this

/-- C4 amended: the CBOW kernel as written equals the kernel restated in the
claim language, with the correction that in the no_average case the error
added to the context rows and to the sentence vector is the raw error (the
count variable having been reassigned to 1 before every division), not the
error divided by the number of summands; in the averaging case hidden is
the mean and the added vector is error divided by the summand count,
exactly as the claim states. -/
theorem C4_trainWordCBOW_no_average (cfg : TrainConfig) (st : TrainState)
    (nodes : List TNode) (word_pos : ℕ) (sent_vec : Option Vec) (alpha : ℚ)
    (tws : ℕ) (draws : ℕ → TNode) (update : Bool) :
    trainWordCBOW cfg st nodes word_pos sent_vec alpha tws draws update =
      trainWordCBOWspec cfg st nodes word_pos sent_vec alpha tws draws
        update := by
  by_cases hna : cfg.no_average
  · simp only [trainWordCBOW, trainWordCBOWspec, hna, if_true, Nat.cast_one,
      vdivs_one]
  · simp only [trainWordCBOW, trainWordCBOWspec, hna, Bool.false_eq_true,
      if_false]
